import Mathlib

/-!
Verification of the racing_muhasebe bookkeeping application.

The definitions below are a shallow embedding of the application's core
logic: the ledger writers (pages MembershipFees, Reimbursements,
CashExpenses, MerchSales, BankImport), the fee generator, the bank and
member import normalizers, and the member-balance aggregator.  Money is
modelled as `Rat` (the source works with JS decimal numbers), dates used
in record-store comparisons as a year/month/day triple, and dates that
only flow through strings (ledger `txn_date`, bank rows) as `String`.
-/

namespace Racing

/-- Left-pad `s` with `c` to length `n` (JS `String.prototype.padStart`). -/
def padStart (n : Nat) (c : Char) (s : String) : String :=
  if n ≤ s.length then s else String.mk (List.replicate (n - s.length) c) ++ s

/-- Drop every character that is not an ASCII letter or digit
(JS `replace(/[^a-zA-Z0-9]/g, '')`). -/
def stripNonAlnum (s : String) : String :=
  String.mk (s.data.filter (fun c => c.isAlphanum))

/-- Split a character list at every separator character accepted by `p`
(JS `String.prototype.split` with a character-class regex; separators are
dropped, empty fields kept). -/
def splitOnPred (p : Char → Bool) : List Char → List (List Char)
  | [] => [[]]
  | c :: rest =>
    if p c then [] :: splitOnPred p rest
    else
      match splitOnPred p rest with
      | [] => [[c]]
      | h :: t => (c :: h) :: t

/-- ASCII lowercasing (JS `String.prototype.toLowerCase` on the ASCII range
exercised here). -/
def lowerStr (s : String) : String := String.mk (s.data.map Char.toLower)

/-- Whether `pat` occurs at the start of `cs`. -/
def matchesAt : List Char → List Char → Bool
  | [], _ => true
  | _ :: _, [] => false
  | p :: ps, c :: cs => p == c && matchesAt ps cs

/-- Whether `pat` occurs anywhere in `cs`. -/
def hasSubstring (pat : List Char) : List Char → Bool
  | [] => pat.isEmpty
  | c :: rest => matchesAt pat (c :: rest) || hasSubstring pat rest

/-- Case-sensitive substring test (JS `String.prototype.includes`). -/
def strIncludes (s pat : String) : Bool := hasSubstring pat.data s.data

/-- Digits-to-number accumulator. -/
def digitsVal (cs : List Char) : Nat :=
  cs.foldl (fun a c => a * 10 + (c.toNat - 48)) 0

/-- Decimal parsing of an amount cell, modelling JS `parseFloat` on
optional-sign decimal inputs (`"-12.5"`, `"100"`, `"1500.50"`), with
prefix semantics (trailing junk ignored).  Inputs with no leading
numeric prefix are modelled as 0 (the source feeds `parseFloat` the
string `"0"` for missing cells; NaN propagation is out of model). -/
def parseDec (s : String) : Rat :=
  let cs := s.data
  let neg := match cs with | '-' :: _ => true | _ => false
  let cs := match cs with
    | '-' :: r => r
    | '+' :: r => r
    | r => r
  let ip := cs.takeWhile Char.isDigit
  let rest := cs.dropWhile Char.isDigit
  let fp := match rest with | '.' :: r => r.takeWhile Char.isDigit | _ => []
  if ip.isEmpty && fp.isEmpty then 0
  else
    let v : Rat := (digitsVal ip : Rat) + (digitsVal fp : Rat) / ((10 : Rat) ^ fp.length)
    if neg then -v else v

/-- Multiplicity of the factor `p` in `n`, with explicit fuel. -/
def countFactor : Nat → Nat → Nat → Nat
  | 0, _, _ => 0
  | fuel + 1, p, n => if n % p == 0 && 1 < n then 1 + countFactor fuel p (n / p) else 0

/-- Canonical decimal rendering of a rational whose reduced denominator is a
product of 2s and 5s (every value produced by `parseDec` is of this form);
models the JS template-string rendering of a parsed amount
(`"100.00" ↦ 100 ↦ "100"`, `"-5.50" ↦ -5.5 ↦ "-5.5"`).  Other denominators
fall back to a fraction spelling (unreachable for parsed amounts). -/
def decRepr (q : Rat) : String :=
  let den := q.den
  let k := max (countFactor den 2 den) (countFactor den 5 den)
  if (10 ^ k) % den == 0 then
    let scaled : Int := q.num * ((10 ^ k) / den : Nat)
    let digits := toString scaled.natAbs
    let digits := padStart (k + 1) '0' digits
    let sign := if q.num < 0 then "-" else ""
    if k == 0 then sign ++ digits
    else sign ++ digits.take (digits.length - k) ++ "." ++ digits.drop (digits.length - k)
  else toString q.num ++ "/" ++ toString q.den

/-- Calendar date as stored by the record store (date-typed columns). -/
structure Date where
  year : Nat
  month : Nat
  day : Nat
deriving DecidableEq

/-- Order key of a date; the record store's `lte`/`gte` on date columns is
modelled by comparing these keys. -/
def Date.key (d : Date) : Nat := d.year * 10000 + d.month * 100 + d.day

/-- Date comparison used by the record-store filters. -/
def dateLe (a b : Date) : Bool := Nat.ble a.key b.key

/-- One row of the append-only `transactions_ledger` table; fields mirror the
insert payloads in the source. -/
structure LedgerEntry where
  txn_date : String
  txn_type : String
  amount : Rat
  member_id : Option Nat
  project : String
  category : String
  description : String
  source : String
  reference_type : String
  reference_id : Option Nat
deriving DecidableEq

/-- A `members` row as used by the fee generator (record-store view with
date-typed columns). -/
structure Member where
  id : Nat
  full_name : String
  join_date : Date
  leave_date : Option Date
deriving DecidableEq

/-- A `membership_fees` row exactly as upserted by fee generation. -/
structure FeeRow where
  member_id : Nat
  fee_month : Date
  amount : Rat
  payment_status : String
deriving DecidableEq

/-- The page-level view of a membership fee (`MembershipFee` interface in
`MembershipFees.tsx`): joined member name and row id included. -/
structure MembershipFeeView where
  id : Nat
  member_id : Nat
  member_name : String
  amount : Rat
  payment_status : String
deriving DecidableEq

/-- A `reimbursements` row (fields used by the handlers). -/
structure Reimbursement where
  id : Nat
  member_id : Nat
  description : String
  amount : Rat
  category : String
  project : String
  payment_status : String
deriving DecidableEq

/-- A `cash_expenses` row (fields used by `handleAddExpense`). -/
structure CashExpense where
  expense_date : String
  amount : Rat
  description : String
  category : String
  project : String
deriving DecidableEq

/-- A `products` row. -/
structure Product where
  id : Nat
  name : String
  category : String
  unit_price : Rat
  stock_quantity : Int
deriving DecidableEq

/-- One line item of the sale form (`saleForm.items` in `MerchSales`). -/
structure SaleItemInput where
  product_id : Nat
  quantity : Int
  unit_price : Rat
deriving DecidableEq

/-- The sale form state submitted to `handleCreateSale`. -/
structure SaleForm where
  member_id : Nat
  order_date : String
  payment_method : String
  payment_status : String
  items : List SaleItemInput
deriving DecidableEq

/-- A `sales_orders` row. -/
structure SalesOrder where
  id : Nat
  member_id : Nat
  order_date : String
  payment_method : String
  payment_status : String
  total_amount : Rat
deriving DecidableEq

/-- A `sales_order_items` row. -/
structure SalesOrderItem where
  order_id : Nat
  product_id : Nat
  product_name : String
  quantity : Int
  unit_price : Rat
  line_total : Rat
deriving DecidableEq

/-- A `bank_transactions` row as built by the bank import. -/
structure BankTxn where
  txn_date : String
  description : String
  amount : Rat
  direction : String
  counterparty : String
  reference : String
  import_hash : String
  import_filename : String
deriving DecidableEq

/-! ## Ledger writers

Each function below builds exactly the `transactions_ledger` insert payload
of the corresponding handler in the source. -/

/-- Ledger entry posted by `MembershipFees.handleMarkPaid`. -/
def feePaymentLedgerEntry (today selectedMonth paymentMethod : String)
    (fee : MembershipFeeView) : LedgerEntry :=
  { txn_date := today
    txn_type := "membership_fee_payment"
    amount := fee.amount
    member_id := some fee.member_id
    project := "General"
    category := "membership"
    description := "Membership fee payment for " ++ selectedMonth ++ " - " ++ fee.member_name
    source := paymentMethod
    reference_type := "membership_fee"
    reference_id := some fee.id }

/-- Ledger entry posted by `Reimbursements.handleMarkPaid`. -/
def reimbPaymentLedgerEntry (today paymentMethod : String)
    (reimb : Reimbursement) : LedgerEntry :=
  { txn_date := today
    txn_type := "reimbursement_payment"
    amount := -reimb.amount
    member_id := some reimb.member_id
    project := reimb.project
    category := reimb.category
    description := "Reimbursement paid: " ++ reimb.description
    source := paymentMethod
    reference_type := "reimbursement"
    reference_id := some reimb.id }

/-- Ledger entry posted by `CashExpenses.handleAddExpense` (the row id the
store generated for the new expense is passed in). -/
def cashExpenseLedgerEntry (expenseId : Nat) (e : CashExpense) : LedgerEntry :=
  { txn_date := e.expense_date
    txn_type := "cash_expense"
    amount := -e.amount
    member_id := none
    project := e.project
    category := e.category
    description := e.description
    source := "cash"
    reference_type := "cash_expense"
    reference_id := some expenseId }

/-- Ledger entry posted by `BankImport.handleImport` for one newly inserted
bank transaction (the source supplies no `member_id` and no `reference_id`
on this path). -/
def bankLedgerEntry (txn : BankTxn) : LedgerEntry :=
  { txn_date := txn.txn_date
    txn_type := "bank_transaction"
    amount := if txn.direction == "in" then txn.amount else -txn.amount
    member_id := none
    project := "General"
    category := "bank"
    description := txn.description
    source := "bank"
    reference_type := "bank_transaction"
    reference_id := none }

/-- Ledger entry posted by `MerchSales.handleCreateSale` when the sale is
created with `payment_status = 'paid'`. -/
def merchSaleLedgerEntry (orderId : Nat) (form : SaleForm) (total : Rat) : LedgerEntry :=
  { txn_date := form.order_date
    txn_type := "merch_sale"
    amount := total
    member_id := some form.member_id
    project := "General"
    category := "merch"
    description := "Merch sale"
    source := form.payment_method
    reference_type := "sale_order"
    reference_id := some orderId }

/-! ## Fee generation (`MembershipFees.handleGenerateFees`) -/

/-- Key equality of two fee rows under the `UNIQUE(member_id, fee_month)`
constraint of the `membership_fees` table. -/
def feeKeyEq (f g : FeeRow) : Bool :=
  f.member_id == g.member_id && f.fee_month == g.fee_month

/-- Whether `fees` already holds a row with `f`'s (member, month) key. -/
def hasFeeKey (fees : List FeeRow) (f : FeeRow) : Bool :=
  fees.any (fun g => feeKeyEq g f)

/-- The record store's `upsert(newFees, onConflict member_id,fee_month,
ignoreDuplicates)` over the `UNIQUE(member_id, fee_month)` index declared in
the migration: rows are inserted in order, and a row whose key already
exists (in the table or earlier in the same batch) is skipped, never
overwriting the existing row. -/
def upsertIgnoreFees (fees newFees : List FeeRow) : List FeeRow :=
  newFees.foldl (fun acc f => if hasFeeKey acc f then acc else acc ++ [f]) fees

/-- The record-store filter of `handleGenerateFees`:
`join_date ≤ monthStart` and (`leave_date` null or `≥ monthStart`), where
`monthStart` is the first day of the selected month. -/
def generateFeesFilter (monthStart : Date) (m : Member) : Bool :=
  dateLe m.join_date monthStart &&
    (match m.leave_date with
     | none => true
     | some d => dateLe monthStart d)

/-- `handleGenerateFees`: select members by `generateFeesFilter`, build one
unpaid fee row per selected member for `monthStart`, and upsert the batch
ignoring key conflicts.  (When no member is selected the source returns
early without touching the store, which coincides with upserting the empty
batch.) -/
def handleGenerateFees (members : List Member) (fees : List FeeRow)
    (monthStart : Date) (feeAmount : Rat) : List FeeRow :=
  let activeMembers := members.filter (generateFeesFilter monthStart)
  let feesToInsert := activeMembers.map (fun m =>
    { member_id := m.id
      fee_month := monthStart
      amount := feeAmount
      payment_status := "unpaid" : FeeRow })
  upsertIgnoreFees fees feesToInsert

/-! ## Sale creation (`MerchSales.handleCreateSale`) -/

/-- Result of a successful sale creation: the order row, its item rows, the
products table after the stock updates, and the ledger entries appended. -/
structure SaleResult where
  order : SalesOrder
  itemRows : List SalesOrderItem
  products : List Product
  ledger : List LedgerEntry
deriving DecidableEq

/-- One pass of the stock-update loop of `handleCreateSale`: the new stock is
computed from the `products` page state captured before the loop
(`snapshot`), not from the store's current value. -/
def saleStockStep (snapshot : List Product) (db : List Product)
    (item : SaleItemInput) : List Product :=
  match snapshot.find? (fun p => p.id == item.product_id) with
  | some product =>
      db.map (fun q =>
        if q.id == item.product_id then
          { q with stock_quantity := product.stock_quantity - item.quantity }
        else q)
  | none => db

/-- `handleCreateSale`: refuse an empty item list; insert the order with
`total_amount` accumulated over the items; insert one item row per input
item; run the stock-update loop; post a `merch_sale` ledger entry only when
the sale is created as paid. -/
def handleCreateSale (products : List Product) (ledger : List LedgerEntry)
    (orderId : Nat) (form : SaleForm) : Option SaleResult :=
  if form.items.isEmpty then none
  else
    let total := form.items.foldl
      (fun sum item => sum + (item.quantity : Rat) * item.unit_price) 0
    let order : SalesOrder :=
      { id := orderId
        member_id := form.member_id
        order_date := form.order_date
        payment_method := form.payment_method
        payment_status := form.payment_status
        total_amount := total }
    let itemRows := form.items.map (fun item =>
      { order_id := orderId
        product_id := item.product_id
        product_name :=
          match products.find? (fun p => p.id == item.product_id) with
          | some p => p.name
          | none => ""
        quantity := item.quantity
        unit_price := item.unit_price
        line_total := (item.quantity : Rat) * item.unit_price : SalesOrderItem })
    let productsAfter := form.items.foldl (saleStockStep products) products
    let ledgerAfter :=
      if form.payment_status == "paid" then
        ledger ++ [merchSaleLedgerEntry orderId form total]
      else ledger
    some { order := order, itemRows := itemRows
           products := productsAfter, ledger := ledgerAfter }

/-! ## Member balances (`Reports.loadMemberBalances`) -/

/-- One row of the member-balances report. -/
structure MemberBalance where
  member_name : String
  fees_owed : Rat
  sales_owed : Rat
  reimb_owed : Rat
  net_balance : Rat
deriving DecidableEq

/-- `loadMemberBalances`, as in the source: per member, filter that member's
rows, keep the unpaid ones, accumulate amounts with a left fold, and set
`net_balance = fees + sales - reimbursements`. -/
def loadMemberBalances (members : List Member) (fees : List FeeRow)
    (sales : List SalesOrder) (reimbursements : List Reimbursement) :
    List MemberBalance :=
  members.map (fun member =>
    let memberFees := fees.filter (fun f => f.member_id == member.id)
    let memberSales := sales.filter (fun s => s.member_id == member.id)
    let memberReimb := reimbursements.filter (fun r => r.member_id == member.id)
    let feesCharged := (memberFees.filter (fun f => f.payment_status == "unpaid")).foldl
      (fun sum f => sum + f.amount) 0
    let salesUnpaid := (memberSales.filter (fun s => s.payment_status == "unpaid")).foldl
      (fun sum s => sum + s.total_amount) 0
    let reimbOwed := (memberReimb.filter (fun r => r.payment_status == "unpaid")).foldl
      (fun sum r => sum + r.amount) 0
    let netBalance := feesCharged + salesUnpaid - reimbOwed
    { member_name := member.full_name
      fees_owed := feesCharged
      sales_owed := salesUnpaid
      reimb_owed := reimbOwed
      net_balance := netBalance })

/-! ## Bank import (`BankImport.handleImport`) -/

/-- Date normalization of `handleImport`: when the mapped date value contains
a `/`, take the text before the first `-` or space, split it on `/`, and if
that yields exactly day/month/year segments with day and month at most two
characters and a four-character year, rewrite as zero-padded
year-month-day; otherwise the raw value passes through. -/
def normalizeBankDate (txnDate : String) : String :=
  if txnDate.data.contains '/' then
    let datePart := (splitOnPred (fun c => c == '-' || c == ' ') txnDate.data).headD []
    match (splitOnPred (fun c => c == '/') datePart).map String.mk with
    | [day, month, year] =>
        if day.length ≤ 2 ∧ month.length ≤ 2 ∧ year.length = 4 then
          year ++ "-" ++ padStart 2 '0' month ++ "-" ++ padStart 2 '0' day
        else txnDate
    | _ => txnDate
  else txnDate

/-- One parsed spreadsheet row after column mapping: the mapped cells as the
source reads them (`""` models a missing cell). -/
structure RawRow where
  dateCell : String
  descCell : String
  amountCell : String
  dirCell : String
  cpCell : String
  refCell : String
deriving DecidableEq

/-- The dedup hash of `handleImport`: normalized date, description and parsed
amount joined with `-`, with all non-alphanumeric characters stripped. -/
def mkImportHash (txnDate description : String) (amount : Rat) : String :=
  stripNonAlnum (txnDate ++ "-" ++ description ++ "-" ++ decRepr amount)

/-- The per-row transformation of `handleImport`: normalize the date, parse
the amount, resolve the direction (the mapped direction cell when a
direction column is mapped, else the sign of the amount; the stored value is
`'out'` when that string contains `"out"` case-insensitively or the raw
amount is negative), store the absolute amount, and attach the dedup hash. -/
def rowToTxn (dirMapped cpMapped refMapped : Bool) (fileName : String)
    (row : RawRow) : BankTxn :=
  let txnDate := normalizeBankDate row.dateCell
  let description := row.descCell
  let amount := parseDec (if row.amountCell == "" then "0" else row.amountCell)
  let direction :=
    if dirMapped then (if row.dirCell == "" then "in" else row.dirCell)
    else (if 0 ≤ amount then "in" else "out")
  let counterparty := if cpMapped then row.cpCell else ""
  let reference := if refMapped then row.refCell else ""
  { txn_date := txnDate
    description := description
    amount := |amount|
    direction := if strIncludes (lowerStr direction) "out" || amount < 0 then "out" else "in"
    counterparty := counterparty
    reference := reference
    import_hash := mkImportHash txnDate description amount
    import_filename := fileName }

/-- The store state touched by the bank import. -/
structure BankState where
  txns : List BankTxn
  ledger : List LedgerEntry
deriving DecidableEq

/-- `handleImport`: map every parsed row to a candidate transaction, drop the
candidates whose hash is already stored in `bank_transactions`, and if any
remain, insert them and post one ledger entry per newly inserted
transaction (the source returns early when none remain). -/
def handleImport (st : BankState) (dirMapped cpMapped refMapped : Bool)
    (fileName : String) (parsedData : List RawRow) : BankState :=
  let transactionsToImport := parsedData.map (rowToTxn dirMapped cpMapped refMapped fileName)
  let existingHashes := st.txns.map (fun t => t.import_hash)
  let newTransactions := transactionsToImport.filter
    (fun t => !(existingHashes.contains t.import_hash))
  if newTransactions.isEmpty then st
  else
    { txns := st.txns ++ newTransactions
      ledger := st.ledger ++ newTransactions.map bankLedgerEntry }

/-! ## Member import (`Members.handleImport`) -/

/-- A `members` row at the import boundary (string dates, as inserted). -/
structure MemberRow where
  full_name : String
  team : String
  join_date : String
  notes : String
deriving DecidableEq

/-- `Members.handleImport`: drop every import record whose lowercased
`full_name` matches an existing member's lowercased `full_name`, and insert
the rest (the source returns early when nothing is left). -/
def handleImportMembers (members : List MemberRow) (importData : List MemberRow) :
    List MemberRow :=
  let existingNames := members.map (fun m => lowerStr m.full_name)
  let newMembers := importData.filter
    (fun m => !(existingNames.contains (lowerStr m.full_name)))
  if newMembers.isEmpty then members
  else members ++ newMembers

/-! ## Spec-side definitions

These definitions follow the specification's words, for comparison with the
definitions translated from the source. -/

/-- Number of days of a calendar month (spec vocabulary for "end of the
month"). -/
def daysInMonth (y m : Nat) : Nat :=
  if m = 2 then (if y % 4 = 0 ∧ (y % 100 ≠ 0 ∨ y % 400 = 0) then 29 else 28)
  else if m = 4 ∨ m = 6 ∨ m = 9 ∨ m = 11 then 30 else 31

/-- Modelled from the spec: the last day of the month that starts at
`monthStart`. -/
def specEndOfMonth (monthStart : Date) : Date :=
  ⟨monthStart.year, monthStart.month, daysInMonth monthStart.year monthStart.month⟩

/-- Modelled from the spec: the fee generator "selects members whose
join_date ≤ end of `month` and whose leave_date is either null or ≥ start
of `month`". -/
def specFeeGenSelects (monthStart : Date) (m : Member) : Bool :=
  dateLe m.join_date (specEndOfMonth monthStart) &&
    (match m.leave_date with
     | none => true
     | some d => dateLe monthStart d)

/-- Modelled from the spec: date normalization worded as "the date-only
portion (text before the first `-` or space)" followed by the split on `/`
and the segment-length checks. -/
def normalizeDateSpec (value : String) : String :=
  if value.data.contains '/' then
    let dateOnly := value.data.takeWhile (fun c => !(c == '-' || c == ' '))
    match (splitOnPred (fun c => c == '/') dateOnly).map String.mk with
    | [day, month, year] =>
        if day.length ≤ 2 ∧ month.length ≤ 2 ∧ year.length = 4 then
          year ++ "-" ++ padStart 2 '0' month ++ "-" ++ padStart 2 '0' day
        else value
    | _ => value
  else value

/-- Observer: the stock of the product with id `pid` in a products table. -/
def stockOf (db : List Product) (pid : Nat) : Option Int :=
  (db.find? (fun q => q.id == pid)).map (fun q => q.stock_quantity)

end Racing

unseal Rat.add Rat.mul Rat.inv Rat.sub Rat.ofScientific

namespace Racing

/-! ## General lemmas -/

theorem foldl_add_eq_sum {α : Type} (f : α → Rat) :
    ∀ (l : List α) (a : Rat), l.foldl (fun s x => s + f x) a = a + (l.map f).sum
  | [], a => by simp
  | x :: l, a => by
    rw [List.foldl_cons, foldl_add_eq_sum f l (a + f x), List.map_cons, List.sum_cons, add_assoc]

theorem splitOnPred_ne_nil (p : Char → Bool) : ∀ cs : List Char, splitOnPred p cs ≠ []
  | [] => by simp [splitOnPred]
  | c :: rest => by
    unfold splitOnPred
    by_cases h : p c
    · simp [h]
    · simp only [h]
      cases hr : splitOnPred p rest <;> simp

theorem splitOnPred_headD_eq_takeWhile (p : Char → Bool) :
    ∀ cs : List Char, (splitOnPred p cs).headD [] = cs.takeWhile (fun c => !(p c))
  | [] => by simp [splitOnPred]
  | c :: rest => by
    unfold splitOnPred
    by_cases h : p c
    · simp [h, List.takeWhile_cons]
    · simp only [h, Bool.false_eq_true, if_false, List.takeWhile_cons, Bool.not_false,
        if_true]
      have ih := splitOnPred_headD_eq_takeWhile p rest
      cases hr : splitOnPred p rest with
      | nil => exact absurd hr (splitOnPred_ne_nil p rest)
      | cons hd tl => rw [hr] at ih; simpa using congrArg (List.cons c) ih

/-! ## C1: ledger sign convention -/

/-- **C1.** For every money-moving action the ledger entry's sign is fixed by
the event kind: marking a reimbursement of amount A paid posts −A; marking a
membership fee of amount A paid posts +A; recording a cash expense of
amount A posts −A; creating a paid merch sale of total T posts +T (the sum
of quantity × unit price over the items); an imported bank transaction of
absolute amount A posts +A when its direction is `in` and −A when `out`. -/
theorem ledger_sign_convention :
    (∀ today month method fee,
      (feePaymentLedgerEntry today month method fee).amount = fee.amount) ∧
    (∀ today method r, (reimbPaymentLedgerEntry today method r).amount = -r.amount) ∧
    (∀ eid e, (cashExpenseLedgerEntry eid e).amount = -e.amount) ∧
    (∀ products ledger orderId form, form.payment_status = "paid" →
      (handleCreateSale products ledger orderId form).map
          (fun r => r.ledger.map (fun entry => entry.amount)) =
        (handleCreateSale products ledger orderId form).map
          (fun _ => ledger.map (fun entry => entry.amount) ++
            [(form.items.map (fun i => (i.quantity : Rat) * i.unit_price)).sum])) ∧
    (∀ txn : BankTxn,
      (txn.direction = "in" → (bankLedgerEntry txn).amount = txn.amount) ∧
      (txn.direction = "out" → (bankLedgerEntry txn).amount = -txn.amount)) := by
  refine ⟨fun _ _ _ _ => rfl, fun _ _ _ => rfl, fun _ _ => rfl, ?_, ?_⟩
  · intro products ledger orderId form hpaid
    by_cases h : form.items.isEmpty
    · simp [handleCreateSale, h]
    · simp only [handleCreateSale, h, Bool.false_eq_true, if_false, Option.map_some]
      rw [hpaid]
      simp [merchSaleLedgerEntry, foldl_add_eq_sum]
  · intro txn
    constructor
    · intro h
      simp [bankLedgerEntry, h]
    · intro h
      have hb : (("out" : String) == "in") = false := by decide
      simp [bankLedgerEntry, h, hb]

theorem ledger_sign_convention_witness :
    ((handleCreateSale [⟨1, "Cap", "merch", 50, 10⟩] [] 7
        ⟨3, "2026-01-04", "cash", "paid", [⟨1, 2, 50⟩, ⟨1, 1, 30⟩]⟩).map
      (fun r => r.ledger.map (fun entry => entry.amount)) = some [130]) ∧
    (bankLedgerEntry ⟨"2026-01-04", "d", 75, "out", "", "", "h", "f"⟩).amount = -75 := by
  constructor
  · rw [ledger_sign_convention.2.2.2.1 [⟨1, "Cap", "merch", 50, 10⟩] [] 7
      ⟨3, "2026-01-04", "cash", "paid", [⟨1, 2, 50⟩, ⟨1, 1, 30⟩]⟩ rfl]
    decide
  · exact (ledger_sign_convention.2.2.2.2 ⟨"2026-01-04", "d", 75, "out", "", "", "h", "f"⟩).2 rfl

/-! ## C7: bank date normalization -/

/-- **C7.** Date normalization: a mapped date value containing `/` has its
date-only portion (text before the first `-` or space) split on `/`; with
exactly three segments of the right lengths it is rewritten as zero-padded
year-month-day, otherwise (and for values without `/`) the raw value passes
through: the source's `normalizeBankDate` coincides with the spec-worded
`normalizeDateSpec` on every input, `"04/01/2026-15:29:07"` normalizes to
`"2026-01-04"`, `"31/12/2025"` to `"2025-12-31"`, and a string without `/`
(such as an already-ISO date) is unchanged. -/
theorem bank_date_normalization :
    normalizeBankDate "04/01/2026-15:29:07" = "2026-01-04" ∧
    normalizeBankDate "31/12/2025" = "2025-12-31" ∧
    (∀ s : String, s.data.contains '/' = false → normalizeBankDate s = s) ∧
    (∀ s : String, normalizeBankDate s = normalizeDateSpec s) := by
  refine ⟨by decide, by decide, ?_, ?_⟩
  · intro s hs
    have h : ¬ ('/' ∈ s.data) := by simpa using hs
    simp [normalizeBankDate, h]
  · intro s
    rw [normalizeBankDate, normalizeDateSpec,
      ← splitOnPred_headD_eq_takeWhile (fun c => c == '-' || c == ' ') s.data]

theorem bank_date_normalization_witness :
    normalizeBankDate "2026-01-04" = "2026-01-04" :=
  bank_date_normalization.2.2.1 "2026-01-04" (by decide)

/-! ## C8: bank amount and direction -/

/-- **C8 (counterexample).** With a direction column mapped, a row whose
direction cell is `"GELEN"` (which does not contain `"out"` in any case)
but whose raw amount is `-50` is stored with direction `out`: the mapped
direction column does not take exclusive precedence, contradicting the
claim that direction is read from the mapped column alone whenever one is
mapped. -/
theorem bank_direction_counterexample :
    (rowToTxn true false false "f.xls"
      ⟨"04/01/2026", "transfer", "-50", "GELEN", "", ""⟩).direction = "out" ∧
    strIncludes (lowerStr "GELEN") "out" = false := by
  decide

/-- **C8 (amended).** For every parsed bank row the stored amount is the
absolute value of the raw amount, and the stored direction is `out` exactly
when the mapped direction value contains `"out"` case-insensitively (with a
direction column mapped; an empty cell reads as `"in"`) **or** the raw
amount is negative; with no direction column mapped this reduces to the
sign of the raw amount. -/
theorem bank_amount_direction :
    ∀ (dirMapped cpMapped refMapped : Bool) (fn : String) (row : RawRow),
      (rowToTxn dirMapped cpMapped refMapped fn row).amount =
        |parseDec (if row.amountCell == "" then "0" else row.amountCell)| ∧
      ((rowToTxn dirMapped cpMapped refMapped fn row).direction = "out" ↔
        ((dirMapped = true ∧
          strIncludes (lowerStr (if row.dirCell == "" then "in" else row.dirCell)) "out" = true) ∨
          parseDec (if row.amountCell == "" then "0" else row.amountCell) < 0)) := by
  intro dirMapped cpMapped refMapped fn row
  have hne : ("in" : String) ≠ "out" := by decide
  have hin : strIncludes (lowerStr "in") "out" = false := by decide
  have hout : strIncludes (lowerStr "out") "out" = true := by decide
  refine ⟨rfl, ?_⟩
  simp only [rowToTxn]
  generalize parseDec (if row.amountCell == "" then "0" else row.amountCell) = amt
  generalize (if row.dirCell == "" then "in" else row.dirCell : String) = dval
  cases dirMapped with
  | true =>
    simp only [if_true]
    cases hb : strIncludes (lowerStr dval) "out" with
    | true => simp [hb]
    | false =>
      by_cases ha : amt < 0
      · simp [hb, ha]
      · simp [hb, ha, hne]
  | false =>
    simp only [Bool.false_eq_true, if_false]
    by_cases ha : amt < 0
    · have h0 : ¬ (0 : Rat) ≤ amt := not_le.mpr ha
      simp [ha, h0, hout]
    · have h0 : (0 : Rat) ≤ amt := not_lt.mp ha
      simp [ha, h0, hin, hne]

theorem bank_amount_direction_witness :
    (rowToTxn true false false "f.xls"
      ⟨"04/01/2026", "transfer", "-50", "GELEN", "", ""⟩).direction = "out" :=
  (bank_amount_direction true false false "f.xls"
    ⟨"04/01/2026", "transfer", "-50", "GELEN", "", ""⟩).2.mpr (Or.inr (by decide))

/-! ## C10: in-file duplicates pass the bank dedup filter -/

/-- **C10.** The bank-import duplicate filter only consults hashes already
stored before the run: a file containing two identical rows (hence equal
dedup hashes) has both rows inserted, each with its own ledger entry. -/
theorem bank_import_in_file_duplicates :
    (handleImport ⟨[], []⟩ false false false "jan.xls"
      [⟨"04/01/2026-15:29:07", "AIDAT", "100", "", "", ""⟩,
       ⟨"04/01/2026-15:29:07", "AIDAT", "100", "", "", ""⟩]).txns.map
        (fun t => t.import_hash) = ["20260104AIDAT100", "20260104AIDAT100"] ∧
    (handleImport ⟨[], []⟩ false false false "jan.xls"
      [⟨"04/01/2026-15:29:07", "AIDAT", "100", "", "", ""⟩,
       ⟨"04/01/2026-15:29:07", "AIDAT", "100", "", "", ""⟩]).ledger.length = 2 := by
  decide

/-! ## C9: member import dedup -/

/-- **C9.** Member import deduplicates against existing members by
case-insensitive exact match on `full_name`: no row inserted by the run
(the rows beyond the pre-existing ones) carries the lowercased name of a
record that matched an existing member; in particular importing
"Jane Doe" over an existing "jane doe" inserts nothing. -/
theorem member_import_dedup :
    (∀ (members importData : List MemberRow) (r : MemberRow), r ∈ importData →
      (∃ m ∈ members, lowerStr m.full_name = lowerStr r.full_name) →
      ((handleImportMembers members importData).drop members.length).all
        (fun x => !(lowerStr x.full_name == lowerStr r.full_name)) = true) ∧
    handleImportMembers [⟨"jane doe", "Ekip A", "2024-01-01", ""⟩]
        [⟨"Jane Doe", "Ekip B", "2026-01-04", ""⟩] =
      [⟨"jane doe", "Ekip A", "2024-01-01", ""⟩] := by
  refine ⟨?_, by decide⟩
  intro members importData r hr ⟨m, hm, hname⟩
  simp only [handleImportMembers]
  rw [List.all_eq_true]
  intro x hx
  have hxf : x ∈ importData.filter (fun y =>
      !((members.map (fun z => lowerStr z.full_name)).contains (lowerStr y.full_name))) := by
    by_cases hempty : (importData.filter (fun y =>
        !((members.map (fun z => lowerStr z.full_name)).contains (lowerStr y.full_name)))).isEmpty
    · rw [if_pos hempty, List.drop_length] at hx
      exact absurd hx (List.not_mem_nil x)
    · rw [if_neg hempty, List.drop_left] at hx
      exact hx
  have hpred := List.of_mem_filter hxf
  simp only [Bool.not_eq_true'] at hpred ⊢
  rw [beq_eq_false_iff_ne]
  intro hcontra
  have hmem : (lowerStr x.full_name) ∈ members.map (fun z => lowerStr z.full_name) :=
    hcontra ▸ hname ▸ List.mem_map_of_mem (fun z => lowerStr z.full_name) hm
  simp only [List.contains] at hpred
  rw [List.elem_eq_true_of_mem hmem] at hpred
  exact Bool.true_eq_false.mp hpred

theorem member_import_dedup_witness :
    ((handleImportMembers [⟨"jane doe", "Ekip A", "2024-01-01", ""⟩]
        [⟨"Jane Doe", "Ekip B", "2026-01-04", ""⟩, ⟨"Ali Veli", "Ekip B", "2026-01-04", ""⟩]).drop
      ([⟨"jane doe", "Ekip A", "2024-01-01", ""⟩] : List MemberRow).length).all
      (fun x => !(lowerStr x.full_name ==
        lowerStr (⟨"Jane Doe", "Ekip B", "2026-01-04", ""⟩ : MemberRow).full_name)) = true :=
  member_import_dedup.1 [⟨"jane doe", "Ekip A", "2024-01-01", ""⟩]
    [⟨"Jane Doe", "Ekip B", "2026-01-04", ""⟩, ⟨"Ali Veli", "Ekip B", "2026-01-04", ""⟩]
    ⟨"Jane Doe", "Ekip B", "2026-01-04", ""⟩ (by decide)
    ⟨⟨"jane doe", "Ekip A", "2024-01-01", ""⟩, by decide, by decide⟩

/-! ## Upsert lemmas for fee generation -/

theorem upsertIgnoreFees_cons (fs : List FeeRow) (n : FeeRow) (ns : List FeeRow) :
    upsertIgnoreFees fs (n :: ns) =
      upsertIgnoreFees (if hasFeeKey fs n then fs else fs ++ [n]) ns := rfl

theorem upsertIgnoreFees_append :
    ∀ (ns fs : List FeeRow), ∃ added, upsertIgnoreFees fs ns = fs ++ added
  | [], fs => ⟨[], (List.append_nil fs).symm⟩
  | n :: ns, fs => by
    rw [upsertIgnoreFees_cons]
    by_cases h : hasFeeKey fs n
    · rw [if_pos h]
      exact upsertIgnoreFees_append ns fs
    · rw [if_neg h]
      obtain ⟨added, ha⟩ := upsertIgnoreFees_append ns (fs ++ [n])
      exact ⟨n :: added, by rw [ha, List.append_assoc]; rfl⟩

theorem hasFeeKey_append_left {fs : List FeeRow} {f : FeeRow}
    (h : hasFeeKey fs f = true) (gs : List FeeRow) : hasFeeKey (fs ++ gs) f = true := by
  rw [hasFeeKey, List.any_append]
  rw [hasFeeKey] at h
  rw [h]
  rfl

theorem hasFeeKey_append_right (fs : List FeeRow) {gs : List FeeRow} {f : FeeRow}
    (h : hasFeeKey gs f = true) : hasFeeKey (fs ++ gs) f = true := by
  rw [hasFeeKey, List.any_append]
  rw [hasFeeKey] at h
  rw [h]
  simp

theorem hasFeeKey_upsert_mono {fs : List FeeRow} {f : FeeRow}
    (h : hasFeeKey fs f = true) (ns : List FeeRow) :
    hasFeeKey (upsertIgnoreFees fs ns) f = true := by
  obtain ⟨added, ha⟩ := upsertIgnoreFees_append ns fs
  rw [ha]
  exact hasFeeKey_append_left h added

theorem upsert_has_all_keys :
    ∀ (ns fs : List FeeRow) (n : FeeRow), n ∈ ns →
      hasFeeKey (upsertIgnoreFees fs ns) n = true
  | m :: ns, fs, n, hmem => by
    rw [upsertIgnoreFees_cons]
    rcases List.mem_cons.mp hmem with heq | htail
    · subst heq
      apply hasFeeKey_upsert_mono
      by_cases h : hasFeeKey fs n
      · rw [if_pos h]; exact h
      · rw [if_neg h]
        apply hasFeeKey_append_right
        rw [hasFeeKey]
        simp [feeKeyEq]
    · exact upsert_has_all_keys ns _ n htail

theorem upsert_no_new_keys :
    ∀ (ns fs : List FeeRow), (∀ n ∈ ns, hasFeeKey fs n = true) →
      upsertIgnoreFees fs ns = fs
  | [], fs, _ => rfl
  | n :: ns, fs, h => by
    rw [upsertIgnoreFees_cons, if_pos (h n (List.mem_cons_self n ns))]
    exact upsert_no_new_keys ns fs (fun x hx => h x (List.mem_cons_of_mem n hx))

theorem upsert_mem :
    ∀ (ns fs : List FeeRow) (f : FeeRow), f ∈ upsertIgnoreFees fs ns →
      f ∈ fs ∨ f ∈ ns
  | [], fs, f, h => Or.inl h
  | n :: ns, fs, f, h => by
    rw [upsertIgnoreFees_cons] at h
    rcases upsert_mem ns _ f h with hacc | hns
    · by_cases hk : hasFeeKey fs n
      · rw [if_pos hk] at hacc
        exact Or.inl hacc
      · rw [if_neg hk] at hacc
        rcases List.mem_append.mp hacc with hfs | hn
        · exact Or.inl hfs
        · exact Or.inr (List.mem_cons.mpr (Or.inl (List.mem_singleton.mp hn)))
    · exact Or.inr (List.mem_cons_of_mem n hns)

/-! ## C6: fee generation idempotence -/

/-- **C6.** Fee generation on the same (month, feeAmount) is idempotent: the
first run only appends rows (every pre-existing fee row, paid or not, is
left untouched at its position), and a second run returns the table of the
first run unchanged — zero new rows, unchanged count. -/
theorem fee_generation_idempotent :
    ∀ (members : List Member) (fees : List FeeRow) (monthStart : Date) (feeAmount : Rat),
      (∃ added, handleGenerateFees members fees monthStart feeAmount = fees ++ added) ∧
      handleGenerateFees members (handleGenerateFees members fees monthStart feeAmount)
          monthStart feeAmount =
        handleGenerateFees members fees monthStart feeAmount := by
  intro members fees monthStart feeAmount
  constructor
  · exact upsertIgnoreFees_append _ fees
  · rw [handleGenerateFees]
    apply upsert_no_new_keys
    intro n hn
    exact upsert_has_all_keys _ fees n hn

/-! ## C2: fee generation member selection -/

/-- **C2 (counterexample).** A member who joins on 2026-01-15 satisfies the
claim's selection condition for January 2026 (`join_date ≤ end of month`,
no leave date), yet the code — which filters on `join_date ≤ monthStart`,
the **first** day of the month — generates no fee row at all for that
member. -/
theorem fee_generation_join_cutoff_counterexample :
    specFeeGenSelects ⟨2026, 1, 1⟩ ⟨1, "Jan Fifteen", ⟨2026, 1, 15⟩, none⟩ = true ∧
    handleGenerateFees [⟨1, "Jan Fifteen", ⟨2026, 1, 15⟩, none⟩] [] ⟨2026, 1, 1⟩ 200 = [] := by
  decide

/-- **C2 (amended).** Fee generation for a month selects exactly the members
whose `join_date` is at most the **first** day of that month and whose
`leave_date` is null or at least the first day of that month: every such
member has a fee row keyed (member, month) in the resulting table, and
every row of the resulting table is either pre-existing or the unpaid fee
row of such a member. -/
theorem fee_generation_selection :
    ∀ (members : List Member) (fees : List FeeRow) (monthStart : Date) (amt : Rat),
      (∀ m ∈ members, generateFeesFilter monthStart m = true →
        hasFeeKey (handleGenerateFees members fees monthStart amt)
          ⟨m.id, monthStart, amt, "unpaid"⟩ = true) ∧
      (∀ f ∈ handleGenerateFees members fees monthStart amt,
        f ∈ fees ∨ ∃ m ∈ members, generateFeesFilter monthStart m = true ∧
          f = ⟨m.id, monthStart, amt, "unpaid"⟩) := by
  intro members fees monthStart amt
  constructor
  · intro m hm hsel
    apply upsert_has_all_keys
    exact List.mem_map_of_mem _ (List.mem_filter.mpr ⟨hm, hsel⟩)
  · intro f hf
    rcases upsert_mem _ fees f hf with hold | hnew
    · exact Or.inl hold
    · obtain ⟨m, hm, hfm⟩ := List.mem_map.mp hnew
      exact Or.inr ⟨m, (List.mem_filter.mp hm).1, (List.mem_filter.mp hm).2, hfm.symm⟩

theorem fee_generation_selection_witness :
    hasFeeKey (handleGenerateFees [⟨1, "Ayse", ⟨2025, 12, 1⟩, none⟩] [] ⟨2026, 1, 1⟩ 200)
      ⟨1, ⟨2026, 1, 1⟩, 200, "unpaid"⟩ = true :=
  (fee_generation_selection [⟨1, "Ayse", ⟨2025, 12, 1⟩, none⟩] [] ⟨2026, 1, 1⟩ 200).1
    ⟨1, "Ayse", ⟨2025, 12, 1⟩, none⟩ (by decide) (by decide)

/-! ## C4: member balances report -/

theorem filter_comm_and {α : Type} (p q : α → Bool) :
    ∀ l : List α, (l.filter q).filter p = l.filter (fun a => q a && p a)
  | [] => rfl
  | x :: l => by
    cases hq : q x <;> cases hp : p x <;>
      simp [List.filter_cons, hq, hp, filter_comm_and p q l]

/-- **C4.** The member-balances report computes, for every member, fees_owed
as the sum of that member's unpaid membership-fee amounts, sales_owed as
the sum of that member's unpaid sales-order totals, reimb_owed as the sum
of that member's unpaid reimbursement amounts, and
net_balance = fees_owed + sales_owed − reimb_owed; a member with one
unpaid 200 TL fee and one unpaid 50 TL reimbursement has net_balance
150. -/
theorem member_balances_correct :
    (∀ (members : List Member) (fees : List FeeRow) (sales : List SalesOrder)
        (reimbursements : List Reimbursement),
      loadMemberBalances members fees sales reimbursements = members.map (fun m =>
        let feesOwed := ((fees.filter (fun f =>
          f.member_id == m.id && f.payment_status == "unpaid")).map (fun f => f.amount)).sum
        let salesOwed := ((sales.filter (fun s =>
          s.member_id == m.id && s.payment_status == "unpaid")).map
            (fun s => s.total_amount)).sum
        let reimbOwed := ((reimbursements.filter (fun r =>
          r.member_id == m.id && r.payment_status == "unpaid")).map (fun r => r.amount)).sum
        { member_name := m.full_name
          fees_owed := feesOwed
          sales_owed := salesOwed
          reimb_owed := reimbOwed
          net_balance := feesOwed + salesOwed - reimbOwed })) ∧
    loadMemberBalances [⟨1, "Mehmet", ⟨2025, 1, 1⟩, none⟩]
        [⟨1, ⟨2026, 1, 1⟩, 200, "unpaid"⟩] []
        [⟨5, 1, "malzeme", 50, "other", "General", "unpaid"⟩] =
      [⟨"Mehmet", 200, 0, 50, 150⟩] := by
  refine ⟨?_, by decide⟩
  intro members fees sales reimbursements
  rw [loadMemberBalances]
  refine congrArg (fun f => List.map f members) (funext fun m => ?_)
  simp only [filter_comm_and, foldl_add_eq_sum, zero_add]

/-! ## C5: bank import dedup and idempotence -/

/-- **C5.** Bank import is deduplicating and idempotent: every transaction
stored after a run was either already stored or had a dedup hash unseen
before the run; the ledger grows by exactly one entry per newly inserted
transaction; and running the same import again leaves the store unchanged,
so the transaction count after both runs equals the count after the first
run alone. -/
theorem bank_import_dedup_idempotent :
    ∀ (st : BankState) (dm cm rm : Bool) (fn : String) (rows : List RawRow),
      (∀ t ∈ (handleImport st dm cm rm fn rows).txns, t ∈ st.txns ∨
        (st.txns.map (fun u => u.import_hash)).contains t.import_hash = false) ∧
      ((handleImport st dm cm rm fn rows).ledger.length =
        st.ledger.length +
          ((handleImport st dm cm rm fn rows).txns.length - st.txns.length)) ∧
      handleImport (handleImport st dm cm rm fn rows) dm cm rm fn rows =
        handleImport st dm cm rm fn rows := by
  intro st dm cm rm fn rows
  by_cases h : ((rows.map (rowToTxn dm cm rm fn)).filter
      (fun t => !((st.txns.map (fun t => t.import_hash)).contains t.import_hash))).isEmpty
  · have hst : handleImport st dm cm rm fn rows = st := by
      simp only [handleImport]
      rw [if_pos h]
    rw [hst]
    exact ⟨fun t ht => Or.inl ht, by simp, hst⟩
  · have hres : handleImport st dm cm rm fn rows =
        ⟨st.txns ++ (rows.map (rowToTxn dm cm rm fn)).filter
            (fun t => !((st.txns.map (fun t => t.import_hash)).contains t.import_hash)),
          st.ledger ++ ((rows.map (rowToTxn dm cm rm fn)).filter
            (fun t => !((st.txns.map (fun t => t.import_hash)).contains
              t.import_hash))).map bankLedgerEntry⟩ := by
      simp only [handleImport]
      rw [if_neg h]
    refine ⟨?_, ?_, ?_⟩
    · rw [hres]
      intro t ht
      rcases List.mem_append.mp ht with hold | hnew
      · exact Or.inl hold
      · right
        have hpred := List.of_mem_filter hnew
        rw [Bool.not_eq_true'] at hpred
        exact hpred
    · rw [hres]
      simp [List.length_append, List.length_map]
    · rw [hres]
      have hnil : (rows.map (rowToTxn dm cm rm fn)).filter
          (fun t => !(((st.txns ++ (rows.map (rowToTxn dm cm rm fn)).filter
            (fun t => !((st.txns.map (fun t => t.import_hash)).contains
              t.import_hash))).map (fun t => t.import_hash)).contains t.import_hash)) = [] := by
        rw [List.filter_eq_nil_iff]
        intro c hc
        rw [Bool.not_not_eq]
        rw [List.map_append]
        by_cases hpc : (st.txns.map (fun t => t.import_hash)).contains c.import_hash = true
        · have hmem : c.import_hash ∈ st.txns.map (fun t => t.import_hash) :=
            List.mem_of_elem_eq_true hpc
          exact List.elem_eq_true_of_mem (List.mem_append_left _ hmem)
        · have hcf : (st.txns.map (fun t => t.import_hash)).contains c.import_hash = false :=
            Bool.eq_false_iff.mpr hpc
          have hcN : c ∈ (rows.map (rowToTxn dm cm rm fn)).filter
              (fun t => !((st.txns.map (fun t => t.import_hash)).contains t.import_hash)) :=
            List.mem_filter.mpr ⟨hc, by rw [hcf]; rfl⟩
          have hmem : c.import_hash ∈ ((rows.map (rowToTxn dm cm rm fn)).filter
              (fun t => !((st.txns.map (fun t => t.import_hash)).contains
                t.import_hash))).map (fun t => t.import_hash) :=
            List.mem_map_of_mem (fun t => t.import_hash) hcN
          exact List.elem_eq_true_of_mem (List.mem_append_right _ hmem)
      simp only [handleImport]
      rw [hnil]
      rfl

theorem bank_import_dedup_idempotent_witness :
    rowToTxn false false false "jan.xls" ⟨"04/01/2026-15:29:07", "AIDAT", "100", "", "", ""⟩ ∈
        (⟨[], []⟩ : BankState).txns ∨
      ((⟨[], []⟩ : BankState).txns.map (fun u => u.import_hash)).contains
        (rowToTxn false false false "jan.xls"
          ⟨"04/01/2026-15:29:07", "AIDAT", "100", "", "", ""⟩).import_hash = false :=
  (bank_import_dedup_idempotent ⟨[], []⟩ false false false "jan.xls"
    [⟨"04/01/2026-15:29:07", "AIDAT", "100", "", "", ""⟩]).1
    (rowToTxn false false false "jan.xls" ⟨"04/01/2026-15:29:07", "AIDAT", "100", "", "", ""⟩)
    (by decide)

/-! ## C3: sale creation -/

/-- **C3 (counterexample).** When two line items reference the same product,
each stock update is computed from the page's product snapshot taken before
the loop, so the last update wins: selling quantities 2 and 3 of the same
product with stock 10 leaves stock 7, not 10 − (2+3) = 5 as the per-item
decrement reading of the claim requires. -/
theorem sale_stock_counterexample :
    (handleCreateSale [⟨1, "Cap", "merch", 5, 10⟩] [] 1
        ⟨2, "2026-01-04", "cash", "unpaid", [⟨1, 2, 5⟩, ⟨1, 3, 5⟩]⟩).map
      (fun r => stockOf r.products 1) = some (some 7) ∧
    (10 : Int) - (2 + 3) = 5 ∧ ((7 : Int) = 5 → False) := by
  decide

theorem map_map_id_of_preserve {α : Type} (g : α → Nat) (u : α → α)
    (hu : ∀ x, g (u x) = g x) :
    ∀ db : List α, (db.map u).map g = db.map g
  | [] => rfl
  | x :: db => by
    rw [List.map_cons, List.map_cons, List.map_cons, hu,
      map_map_id_of_preserve g u hu db]

theorem saleStockStep_map_id (snapshot db : List Product) (item : SaleItemInput) :
    (saleStockStep snapshot db item).map (fun p => p.id) = db.map (fun p => p.id) := by
  rw [saleStockStep]
  cases hf : snapshot.find? (fun p => p.id == item.product_id) with
  | none => rfl
  | some product =>
    exact map_map_id_of_preserve (fun p => p.id)
      (fun q => if q.id == item.product_id then
        { q with stock_quantity := product.stock_quantity - item.quantity } else q)
      (fun q => by by_cases hq : (q.id == item.product_id) = true <;> simp [hq]) db

theorem foldStock_map_id (snapshot : List Product) :
    ∀ (items : List SaleItemInput) (db : List Product),
      (items.foldl (saleStockStep snapshot) db).map (fun p => p.id) =
        db.map (fun p => p.id)
  | [], _ => rfl
  | it :: items, db => by
    rw [List.foldl_cons, foldStock_map_id snapshot items _, saleStockStep_map_id]

theorem find?_map_preserve (u : Product → Product) (hu : ∀ q, (u q).id = q.id) (pid : Nat) :
    ∀ db : List Product,
      (db.map u).find? (fun q => q.id == pid) = (db.find? (fun q => q.id == pid)).map u
  | [] => rfl
  | x :: db => by
    rw [List.map_cons]
    simp only [List.find?]
    rw [hu x]
    cases h : (x.id == pid) with
    | true => rfl
    | false => exact find?_map_preserve u hu pid db

theorem stockOf_saleStockStep_other (snapshot db : List Product) (item : SaleItemInput)
    (pid : Nat) (hne : item.product_id ≠ pid) :
    stockOf (saleStockStep snapshot db item) pid = stockOf db pid := by
  rw [saleStockStep]
  cases hf : snapshot.find? (fun p => p.id == item.product_id) with
  | none => rfl
  | some product =>
    rw [stockOf, stockOf, find?_map_preserve
      (fun q => if q.id == item.product_id then
        { q with stock_quantity := product.stock_quantity - item.quantity } else q)
      (fun q => by by_cases hq : (q.id == item.product_id) = true <;> simp [hq]) pid db]
    cases hdb : db.find? (fun q => q.id == pid) with
    | none => rfl
    | some q =>
      have hq := List.find?_some hdb
      have hqid : q.id = pid := by simpa using hq
      have hqne : ¬ q.id = item.product_id := by
        rw [hqid]
        exact fun hcontra => hne hcontra.symm
      simp [hqne]

theorem stockOf_foldStock_other (snapshot : List Product) (pid : Nat) :
    ∀ (items : List SaleItemInput) (db : List Product),
      (∀ it ∈ items, it.product_id ≠ pid) →
      stockOf (items.foldl (saleStockStep snapshot) db) pid = stockOf db pid
  | [], _, _ => rfl
  | it :: items, db, h => by
    rw [List.foldl_cons,
      stockOf_foldStock_other snapshot pid items _
        (fun x hx => h x (List.mem_cons_of_mem it hx)),
      stockOf_saleStockStep_other snapshot db it pid (h it (List.mem_cons_self it items))]

theorem stockOf_saleStockStep_hit (snapshot db : List Product) (item : SaleItemInput)
    (p : Product) (hp : snapshot.find? (fun q => q.id == item.product_id) = some p)
    (hdb : (db.find? (fun q => q.id == item.product_id)).isSome = true) :
    stockOf (saleStockStep snapshot db item) item.product_id =
      some (p.stock_quantity - item.quantity) := by
  rw [saleStockStep, hp]
  rw [stockOf, find?_map_preserve
    (fun q => if q.id == item.product_id then
      { q with stock_quantity := p.stock_quantity - item.quantity } else q)
    (fun q => by by_cases hq : (q.id == item.product_id) = true <;> simp [hq])
    item.product_id db]
  cases hf : db.find? (fun q => q.id == item.product_id) with
  | none => rw [hf] at hdb; simp at hdb
  | some q =>
    have hq : q.id = item.product_id := by simpa using List.find?_some hf
    simp [hq]

theorem find?_eq_some_of_mem_nodup :
    ∀ (l : List Product), (l.map (fun p => p.id)).Nodup → ∀ p ∈ l,
      l.find? (fun q => q.id == p.id) = some p
  | [], _, p, hp => absurd hp (List.not_mem_nil p)
  | a :: l, hnd, p, hp => by
    rw [List.map_cons] at hnd
    rcases List.mem_cons.mp hp with heq | htail
    · subst heq
      exact List.find?_cons_of_pos _ (by simp)
    · have hane : (a.id == p.id) = false := by
        rw [beq_eq_false_iff_ne]
        intro hcontra
        exact (List.nodup_cons.mp hnd).1
          (hcontra ▸ List.mem_map_of_mem (fun p => p.id) htail)
      rw [List.find?_cons_of_neg _ (by rw [hane]; exact Bool.false_ne_true)]
      exact find?_eq_some_of_mem_nodup l (List.nodup_cons.mp hnd).2 p htail

theorem find?_isSome_of_id_mem (pid : Nat) :
    ∀ db : List Product, pid ∈ db.map (fun p => p.id) →
      (db.find? (fun q => q.id == pid)).isSome = true := by
  intro db hmem
  obtain ⟨q, hq, hqid⟩ := List.mem_map.mp hmem
  rw [List.find?_isSome]
  exact ⟨q, hq, by rw [hqid, beq_self_eq_true]⟩

/-- **C3 (amended).** Creating a sale with a non-empty item list yields an
order whose `total_amount` is the sum over the items of
quantity × unit price and one item row per input item with
`line_total` = quantity × unit price; and — provided product ids are
distinct (the table's primary key) and the items reference pairwise
distinct products — each referenced product's stock decreases by that
item's quantity.  (When several items reference the same product only the
last decrement survives, see the counterexample.) -/
theorem sale_totals_and_stock :
    ∀ (products : List Product) (ledger : List LedgerEntry) (orderId : Nat)
      (form : SaleForm) (r : SaleResult),
      handleCreateSale products ledger orderId form = some r →
      (products.map (fun p => p.id)).Nodup →
      (form.items.map (fun i => i.product_id)).Nodup →
      r.order.total_amount = (form.items.map (fun i => (i.quantity : Rat) * i.unit_price)).sum ∧
      r.itemRows.map (fun it => it.line_total) =
        form.items.map (fun i => (i.quantity : Rat) * i.unit_price) ∧
      (∀ item ∈ form.items, ∀ p ∈ products, p.id = item.product_id →
        stockOf r.products p.id = some (p.stock_quantity - item.quantity)) := by
  intro products ledger orderId form r hr hnp hni
  rw [handleCreateSale] at hr
  by_cases hempty : form.items.isEmpty
  · rw [if_pos hempty] at hr
    exact absurd hr (by simp)
  · rw [if_neg hempty] at hr
    have hr' := Option.some.inj hr
    subst hr'
    refine ⟨?_, ?_, ?_⟩
    · show form.items.foldl (fun sum item => sum + (item.quantity : Rat) * item.unit_price) 0 =
        (form.items.map (fun i => (i.quantity : Rat) * i.unit_price)).sum
      rw [foldl_add_eq_sum, zero_add]
    · rw [List.map_map]
      rfl
    · intro item hitem p hp hpid
      show stockOf (form.items.foldl (saleStockStep products) products) p.id =
        some (p.stock_quantity - item.quantity)
      obtain ⟨pre, post, hsplit⟩ := List.append_of_mem hitem
      rw [hsplit, List.foldl_append, List.foldl_cons]
      have hpost : ∀ it ∈ post, it.product_id ≠ p.id := by
        intro it hit hcontra
        rw [hsplit, List.map_append, List.map_cons] at hni
        have hnotin := (List.nodup_cons.mp (hni.of_append_right)).1
        rw [← hpid] at hnotin
        exact hnotin (hcontra ▸ List.mem_map_of_mem (fun i => i.product_id) hit)
      rw [stockOf_foldStock_other products p.id post _ hpost]
      rw [hpid]
      apply stockOf_saleStockStep_hit
      · rw [← hpid]
        exact find?_eq_some_of_mem_nodup products hnp p hp
      · apply find?_isSome_of_id_mem
        rw [foldStock_map_id, ← hpid]
        exact List.mem_map_of_mem (fun p => p.id) hp

theorem sale_totals_and_stock_witness :
    stockOf (((handleCreateSale
        [⟨1, "Cap", "merch", 50, 10⟩, ⟨2, "Tee", "merch", 30, 8⟩] [] 3
        ⟨4, "2026-01-04", "cash", "paid", [⟨1, 2, 50⟩, ⟨2, 1, 30⟩]⟩).map
      (fun r => r.products)).getD []) 1 = some (10 - 2) := by
  have h := sale_totals_and_stock
    [⟨1, "Cap", "merch", 50, 10⟩, ⟨2, "Tee", "merch", 30, 8⟩] [] 3
    ⟨4, "2026-01-04", "cash", "paid", [⟨1, 2, 50⟩, ⟨2, 1, 30⟩]⟩
    ⟨⟨3, 4, "2026-01-04", "cash", "paid", 130⟩,
     [⟨3, 1, "Cap", 2, 50, 100⟩, ⟨3, 2, "Tee", 1, 30, 30⟩],
     [⟨1, "Cap", "merch", 50, 8⟩, ⟨2, "Tee", "merch", 30, 7⟩],
     [⟨"2026-01-04", "merch_sale", 130, some 4, "General", "merch", "Merch sale", "cash",
       "sale_order", some 3⟩]⟩
    (by decide) (by decide) (by decide)
  have hstock := h.2.2 ⟨1, 2, 50⟩ (by decide) ⟨1, "Cap", "merch", 50, 10⟩ (by decide) rfl
  exact hstock

end Racing
